import Mathlib

/-!
Shallow embedding of the Pdfpaste batch clipboard-automation pipeline:
the asset listing functions (`get_temp_image_files`, `refresh_temp_files`),
the batch runner (`start_auto_copy_paste`, `process_next_image`,
`stop_auto_copy_paste`, `get_copy_interval`), the hotkey poller
(`get_key_state` / listen loop), and the scratch-directory model
(`create_temp_directory`, `delete_selected_files`).
-/

namespace Pdfpaste

/-! ## Interval getter (`AutoCopyService.get_copy_interval`) -/

/-- Result of calling the user-supplied `interval_getter`: either a numeric
value or one of the two exception classes the code catches. -/
inductive IntervalRes where
  | ok (v : ℚ)
  | valueError
  | typeError
deriving DecidableEq

/-- The literal `0.5` of the source, written as a quotient of integers so
that it evaluates inside the kernel. -/
def half : ℚ := Rat.divInt 1 2

/-- `AutoCopyService.get_copy_interval`: clamps the getter value to
[0.5, 60]; on `ValueError`/`TypeError` returns the default 4. -/
def get_copy_interval : IntervalRes → ℚ
  | .ok v => if v < half then half else if 60 < v then 60 else v
  | .valueError => 4
  | .typeError => 4

/-! ## Scratch directory model and the two listing functions -/

/-- One entry of `os.listdir` on the scratch directory: its name, its
last-modified time, and whether it is a regular file. -/
structure DirEntry where
  name : String
  mtime : ℕ
  isFile : Bool
deriving DecidableEq

/-- The observable state of the scratch directory: the path is unset or the
directory is gone (`missing`), `os.listdir` raises (`unreadable`), or it
yields a list of entries in listdir order (`present`). -/
inductive ScratchDir where
  | missing
  | unreadable
  | present (entries : List DirEntry)
deriving DecidableEq

/-- Python `str.lower()` on a code-point string (the file names in play
are ASCII, where Lean's `Char.toLower` agrees with Python). Defined by
structural recursion over the character list so it reduces in the kernel. -/
def strToLower (s : String) : String :=
  ⟨s.data.map Char.toLower⟩

/-- Python `str.endswith(p)` on code-point strings, via list suffix. -/
def strEndsWith (s p : String) : Bool :=
  p.data.isSuffixOf s.data

/-- `name.lower().endswith(ext)` for some `ext` in `exts`. -/
def hasImageExt (exts : List String) (name : String) : Bool :=
  exts.any (fun ext => strEndsWith (strToLower name) ext)

/-- Extension allow-list of `AutoCopyService.get_temp_image_files`. -/
def autoExts : List String := [".png", ".jpg", ".jpeg", ".gif", ".bmp", ".tiff"]

/-- Extension allow-list of `PDFDocument.refresh_temp_files` (no gif). -/
def refreshExts : List String := [".png", ".jpg", ".jpeg", ".tiff", ".bmp"]

/-- Python `<` on strings as code-point lists: lexicographic by code
point, a strict prefix is smaller. Structural, so it evaluates in the
kernel (`String.ltb` of the library does not). -/
def charsLt : List Char → List Char → Bool
  | _, [] => false
  | [], _ :: _ => true
  | a :: as, b :: bs =>
    if a.toNat < b.toNat then true
    else if b.toNat < a.toNat then false
    else charsLt as bs

/-- Python `a <= b` on strings: `not (b < a)`. This is the order in which
Python's ascending `list.sort()` leaves the list. -/
def pyLe (a b : String) : Prop := charsLt b.data a.data = false

instance : DecidableRel pyLe := fun a b => instDecidableEqBool (charsLt b.data a.data) false

/-- `AutoCopyService.get_temp_image_files`: on a missing directory or a
listdir error returns `[]`; otherwise keeps the names passing the
six-extension filter (the `os.path.exists` re-check holds for every listed
entry, regular file or not) and sorts them with Python `list.sort()`,
i.e. ascending lexicographically by code point. File names stand for the
full joined paths, whose common directory prefix does not affect the
order. -/
def get_temp_image_files : ScratchDir → List String
  | .missing => []
  | .unreadable => []
  | .present entries =>
      List.insertionSort pyLe
        ((entries.filter (fun e => hasImageExt autoExts e.name)).map (fun e => e.name))

/-- Key order used by `refresh_temp_files`: ascending last-modified time. -/
def mtimeLe (a b : DirEntry) : Prop := a.mtime ≤ b.mtime

instance : DecidableRel mtimeLe := fun a b => Nat.decLe a.mtime b.mtime

instance : IsTotal DirEntry mtimeLe := ⟨fun a b => Nat.le_total a.mtime b.mtime⟩

instance : IsTrans DirEntry mtimeLe := ⟨fun _ _ _ h h2 => Nat.le_trans h h2⟩

/-- `PDFDocument.refresh_temp_files`: on a missing directory or an error
returns `[]`; otherwise keeps the regular files passing the five-extension
filter (no gif) and sorts them by `os.path.getmtime` ascending with
Python's stable sort. -/
def refresh_temp_files : ScratchDir → List String
  | .missing => []
  | .unreadable => []
  | .present entries =>
      (List.insertionSort mtimeLe
        (entries.filter (fun e => hasImageExt refreshExts e.name && e.isFile))).map
        (fun e => e.name)

/-- Modelled from the spec (for comparison only): `listAssets()` as §4.1
words it — regular files whose extension is in the six-element allow-list
(png, jpg, jpeg, tiff, bmp, gif), ordered by last-modified time ascending,
`[]` on a missing or unreadable directory. -/
def listAssets_spec : ScratchDir → List String
  | .missing => []
  | .unreadable => []
  | .present entries =>
      (List.insertionSort mtimeLe
        (entries.filter (fun e => hasImageExt autoExts e.name && e.isFile))).map
        (fun e => e.name)

/-! ## Batch runner state machine (`AutoCopyService`) -/

/-- The mutable fields of `AutoCopyService` together with the scheduled
Qt timers: `timerActive` is the repeating `auto_copy_timer`,
`pendingPaste` counts scheduled `QTimer.singleShot(500, simulate_paste)`
calls not yet fired, `pendingStop` a scheduled
`QTimer.singleShot(1000, stop_auto_copy_paste)`, and `getterCalls` counts
how often `interval_getter` has been consulted. -/
structure RunnerState where
  current_image_index : ℕ
  images_to_process : List String
  is_auto_processing : Bool
  timerActive : Bool
  pendingPaste : ℕ
  pendingStop : Bool
  getterCalls : ℕ
deriving DecidableEq

/-- The runner at application start. -/
def initState : RunnerState :=
  { current_image_index := 0
    images_to_process := []
    is_auto_processing := false
    timerActive := false
    pendingPaste := 0
    pendingStop := false
    getterCalls := 0 }

/-- Observable calls made by the runner: a clipboard-write attempt on a
path with its outcome, a simulated paste, and an arming of the inter-item
timer with the chosen delay in milliseconds. -/
inductive Ev where
  | copy (path : String) (ok : Bool)
  | paste
  | sched (ms : ℕ)
deriving DecidableEq

/-- `AutoCopyService.stop_auto_copy_paste`: a no-op when idle; otherwise
stops the repeating timer and clears the processing flag. -/
def stop_auto_copy_paste (s : RunnerState) : RunnerState :=
  if s.is_auto_processing = false then s
  else { s with timerActive := false, is_auto_processing := false }

/-- Milliseconds armed for the inter-item timer on the `k`-th read of the
interval getter: `int(interval * 1000)`. The clamped value `q` is
positive, so Python `int` truncation is the floor,
`⌊q·1000⌋ = (q.num · 1000) / q.den`; it is computed here on the numerator
and denominator directly so that it evaluates inside the kernel. -/
def delayMs (getter : ℕ → IntervalRes) (k : ℕ) : ℕ :=
  let q := get_copy_interval (getter k)
  q.num.toNat * 1000 / q.den

/-- `AutoCopyService.process_next_image`, parameterised by the outcome of
`ClipboardService.copy_image_to_clipboard` on each path and by the stream
of interval-getter results. Returns the new state and the observable
calls made during this step. -/
def process_next_image (copyOk : String → Bool) (getter : ℕ → IntervalRes)
    (s : RunnerState) : RunnerState × List Ev :=
  if s.is_auto_processing = false ∨ s.images_to_process.length ≤ s.current_image_index then
    (stop_auto_copy_paste s, [])
  else
    let img := s.images_to_process.getD s.current_image_index ""
    let ok := copyOk img
    let s1 := { s with
      pendingPaste := if ok then s.pendingPaste + 1 else s.pendingPaste
      current_image_index := s.current_image_index + 1 }
    if s1.current_image_index < s.images_to_process.length then
      let ms := delayMs getter s.getterCalls
      ({ s1 with timerActive := true, getterCalls := s.getterCalls + 1 },
        [Ev.copy img ok, Ev.sched ms])
    else
      ({ s1 with pendingStop := true }, [Ev.copy img ok])

/-- `AutoCopyService.start_auto_copy_paste`: rejected when already
processing; snapshots `get_temp_image_files`, rejected when the snapshot
is empty (the snapshot field is still overwritten, as in the code);
otherwise resets the cursor, raises the flag, and immediately runs
`process_next_image` on item 0. -/
def start_auto_copy_paste (copyOk : String → Bool) (getter : ℕ → IntervalRes)
    (dir : ScratchDir) (s : RunnerState) : RunnerState × List Ev :=
  if s.is_auto_processing then (s, [])
  else
    let imgs := get_temp_image_files dir
    let s0 := { s with images_to_process := imgs }
    if imgs.isEmpty then (s0, [])
    else
      process_next_image copyOk getter
        { s0 with current_image_index := 0, is_auto_processing := true }

/-- Event-loop driver: each tick first fires any due 500 ms paste
single-shots, then the repeating inter-item timer if armed (which runs
`process_next_image`), then a due `singleShot(1000, stop)`. `fuel` bounds
the number of ticks; once nothing is scheduled the state is returned
unchanged, so any sufficiently large fuel gives the same result. -/
def driveRun (copyOk : String → Bool) (getter : ℕ → IntervalRes) :
    ℕ → RunnerState → RunnerState × List Ev
  | 0, s => (s, [])
  | n + 1, s =>
    let pEs := List.replicate s.pendingPaste Ev.paste
    let s0 := { s with pendingPaste := 0 }
    if s0.timerActive then
      let r1 := process_next_image copyOk getter s0
      let r2 := driveRun copyOk getter n r1.1
      (r2.1, pEs ++ r1.2 ++ r2.2)
    else if s0.pendingStop then
      let r2 := driveRun copyOk getter n (stop_auto_copy_paste { s0 with pendingStop := false })
      (r2.1, pEs ++ r2.2)
    else (s0, pEs)

/-- A whole run: `start_auto_copy_paste` from the idle initial state, then
the event loop until nothing remains scheduled. -/
def runAll (copyOk : String → Bool) (getter : ℕ → IntervalRes)
    (dir : ScratchDir) : RunnerState × List Ev :=
  let r1 := start_auto_copy_paste copyOk getter dir initState
  let r2 := driveRun copyOk getter ((get_temp_image_files dir).length + 5) r1.1
  (r2.1, r1.2 ++ r2.2)

/-- Projection of a trace onto the clipboard-write calls (path, outcome). -/
def copyTrace (es : List Ev) : List (String × Bool) :=
  es.filterMap (fun e => match e with
    | .copy p ok => some (p, ok)
    | _ => none)

/-- Projection of a trace onto the armed inter-item delays (ms). -/
def schedTrace (es : List Ev) : List ℕ :=
  es.filterMap (fun e => match e with
    | .sched ms => some ms
    | _ => none)

/-- Number of simulated paste calls in a trace. -/
def pasteCount (es : List Ev) : ℕ :=
  (es.filter (fun e => e = Ev.paste)).length

/-! ## Hotkey watcher (`KeyboardService`) -/

/-- `Quartz.kCGEventFlagMaskAlternate` (bit 19). -/
def kCGEventFlagMaskAlternate : ℕ := 524288

/-- `Quartz.kCGEventFlagMaskCommand` (bit 20). -/
def kCGEventFlagMaskCommand : ℕ := 1048576

/-- `KeyboardService.get_key_state` on the polled flags word: masks out
Command and Option; when both are nonzero (Python truthiness) it invokes
the callback and returns `True`. The return value thus marks exactly the
ticks on which the callback is invoked. -/
def get_key_state (keys : ℕ) : Bool :=
  let cmd_pressed := keys &&& kCGEventFlagMaskCommand
  let option_pressed := keys &&& kCGEventFlagMaskAlternate
  decide (option_pressed ≠ 0) && decide (cmd_pressed ≠ 0)

/-- `KeyboardService._listen_loop` over a finite sequence of polled flag
words: the number of callback invocations (one per tick on which
`get_key_state` fires). -/
def listen_loop_calls : List ℕ → ℕ
  | [] => 0
  | k :: rest => (if get_key_state k then 1 else 0) + listen_loop_calls rest

/-- Modelled from the spec (for comparison only): the §3 `ChordState`
invariant of an edge-triggered detector — the callback fires only on a
transition from chord-not-fully-held to chord-fully-held. `prev` is
whether the chord was fully held at the previous tick. -/
def edge_calls_spec : Bool → List ℕ → ℕ
  | _, [] => 0
  | prev, k :: rest =>
    let held := get_key_state k
    (if held && !prev then 1 else 0) + edge_calls_spec held rest

/-! ## `PDFDocument` scratch-directory lifecycle -/

/-- The fields of `PDFDocument` the scratch lifecycle touches, plus a
cursor into the `tempfile.mkdtemp` oracle. -/
structure DocState where
  temp_dir : Option String
  temp_files : List String
  mkCalls : ℕ
deriving DecidableEq

/-- A fresh document model (temp dir not yet created). -/
def initDoc : DocState :=
  { temp_dir := none, temp_files := [], mkCalls := 0 }

/-- `PDFDocument.create_temp_directory`, with `mk k` the result of the
`k`-th call to `tempfile.mkdtemp` (`none` = the call raises): assigns the
new directory unconditionally; an exception is caught and recorded as
`temp_dir = None` rather than propagated. -/
def create_temp_directory (mk : ℕ → Option String) (s : DocState) : DocState :=
  match mk s.mkCalls with
  | some d => { s with temp_dir := some d, mkCalls := s.mkCalls + 1 }
  | none => { s with temp_dir := none, mkCalls := s.mkCalls + 1 }

/-- One iteration of the `PDFDocument.delete_selected_files` loop on path
`p`. State: (files existing on disk, tracked `temp_files`, deleted count).
`removeFail p` = `os.remove(p)` raises; the exception is caught for this
path, skipping both the count and the tracked-list removal. A path not on
disk skips `os.remove` and the count but is still dropped from the
tracked list. -/
def delete_step (removeFail : String → Bool)
    (st : List String × List String × ℕ) (p : String) :
    List String × List String × ℕ :=
  if p ∈ st.1 then
    if removeFail p then st
    else (st.1.erase p, st.2.1.erase p, st.2.2 + 1)
  else (st.1, st.2.1.erase p, st.2.2)

/-- `PDFDocument.delete_selected_files` over the selected paths: returns
the remaining disk files, the remaining tracked list, and `deleted_count`.
Total — every per-path error is caught inside the loop. -/
def delete_selected_files (removeFail : String → Bool)
    (disk temp_files : List String) (selected : List String) :
    List String × List String × ℕ :=
  selected.foldl (delete_step removeFail) (disk, temp_files, 0)

/-! ## Concrete fixtures used by witnesses and counterexamples -/

/-- A clipboard that always succeeds. -/
def copyOkAll : String → Bool := fun _ => true

/-- A clipboard that fails exactly on `a.png`. -/
def copyOkNotA : String → Bool := fun p => p != "a.png"

/-- An interval getter that always returns 4 seconds. -/
def getterConst4 : ℕ → IntervalRes := fun _ => .ok 4

/-- An interval getter that always raises `ValueError`. -/
def getterErr : ℕ → IntervalRes := fun _ => .valueError

/-- An interval getter returning 4 on its first call and 7 afterwards. -/
def getterSteps : ℕ → IntervalRes := fun k => if k = 0 then .ok 4 else .ok 7

/-- A scratch directory holding one image. -/
def dirOne : ScratchDir := .present [⟨"a.png", 1, true⟩]

/-- A scratch directory holding two images. -/
def dirTwo : ScratchDir := .present [⟨"a.png", 1, true⟩, ⟨"b.png", 2, true⟩]

/-- A scratch directory holding three images. -/
def dirThree : ScratchDir :=
  .present [⟨"a.png", 1, true⟩, ⟨"b.png", 2, true⟩, ⟨"c.png", 3, true⟩]

/-- A scratch directory holding one regular gif file. -/
def dirGif : ScratchDir := .present [⟨"a.gif", 5, true⟩]

/-- A scratch directory where name order and mtime order disagree. -/
def dirMtime : ScratchDir := .present [⟨"b.png", 1, true⟩, ⟨"a.png", 2, true⟩]

/-- A runner in the middle of a run (cursor 0 of one item, timer armed). -/
def busyState : RunnerState := ⟨0, ["x.png"], true, true, 0, false, 0⟩

/-- An `mkdtemp` oracle yielding the fresh names dir0, dir1, dir2, ... -/
def mkSeq : ℕ → Option String := fun k => some (if k = 0 then "dir0" else "dir1")

/-- The flags word with both Command (bit 20) and Option (bit 19) held. -/
def chordFlags : ℕ := 1572864

/-! ## Helper lemmas: the Python string order -/

theorem charsLt_asymm : ∀ x y : List Char, charsLt x y = true → charsLt y x = false := by
  intro x
  induction x with
  | nil =>
    intro y h
    cases y with
    | nil => simp [charsLt] at h
    | cons b bs => simp [charsLt]
  | cons a as ih =>
    intro y h
    cases y with
    | nil => simp [charsLt] at h
    | cons b bs =>
      simp only [charsLt] at h ⊢
      split_ifs at h ⊢ with h1 h2 h3 <;> first | rfl | omega | exact ih bs h

theorem charsLt_conn : ∀ x y : List Char,
    charsLt x y = false → charsLt y x = false → x = y := by
  intro x
  induction x with
  | nil =>
    intro y hxy hyx
    cases y with
    | nil => rfl
    | cons b bs => simp [charsLt] at hxy
  | cons a as ih =>
    intro y hxy hyx
    cases y with
    | nil => simp [charsLt] at hyx
    | cons b bs =>
      simp only [charsLt] at hxy hyx
      split_ifs at hxy hyx with h1 h2 <;> try omega
      have hn : a.toNat = b.toNat := by omega
      have hab : a = b := Char.ext (UInt32.toNat.inj hn)
      rw [hab, ih bs hxy hyx]

theorem charsLt_trans : ∀ x y z : List Char,
    charsLt x y = true → charsLt y z = true → charsLt x z = true := by
  intro x
  induction x with
  | nil =>
    intro y z hxy hyz
    cases z with
    | nil =>
      cases y with
      | nil => simp [charsLt] at hxy
      | cons b bs => simp [charsLt] at hyz
    | cons c cs => simp [charsLt]
  | cons a as ih =>
    intro y z hxy hyz
    cases y with
    | nil => simp [charsLt] at hxy
    | cons b bs =>
      cases z with
      | nil => simp [charsLt] at hyz
      | cons c cs =>
        simp only [charsLt] at hxy hyz ⊢
        split_ifs at hxy hyz ⊢ with h1 h2 h3 h4 h5 h6 <;>
          first | rfl | omega | exact ih bs cs hxy hyz

instance : IsTotal String pyLe := by
  constructor
  intro a b
  by_cases h : charsLt b.data a.data = true
  · right
    exact charsLt_asymm _ _ h
  · left
    exact Bool.eq_false_iff.mpr h

instance : IsTrans String pyLe := by
  constructor
  intro a b c hab hbc
  simp only [pyLe] at hab hbc ⊢
  by_cases hca : charsLt c.data a.data = true
  · exfalso
    by_cases hbc2 : charsLt b.data c.data = true
    · have hba : charsLt b.data a.data = true := charsLt_trans _ _ _ hbc2 hca
      exact Bool.false_ne_true (hab.symm.trans hba)
    · have hbc2' : charsLt b.data c.data = false := Bool.eq_false_iff.mpr hbc2
      have hbceq : b.data = c.data := charsLt_conn _ _ hbc2' hbc
      rw [hbceq] at hab
      exact Bool.false_ne_true (hab.symm.trans hca)
  · exact Bool.eq_false_iff.mpr hca

/-! ## Helper lemmas: trace projections -/

theorem copyTrace_append (es fs : List Ev) :
    copyTrace (es ++ fs) = copyTrace es ++ copyTrace fs :=
  List.filterMap_append es fs _

theorem schedTrace_append (es fs : List Ev) :
    schedTrace (es ++ fs) = schedTrace es ++ schedTrace fs :=
  List.filterMap_append es fs _

theorem pasteCount_append (es fs : List Ev) :
    pasteCount (es ++ fs) = pasteCount es + pasteCount fs := by
  simp [pasteCount, List.filter_append]

theorem copyTrace_replicate_paste (n : ℕ) :
    copyTrace (List.replicate n Ev.paste) = [] := by
  induction n with
  | zero => rfl
  | succ m ih => simpa [List.replicate_succ, copyTrace] using ih

theorem schedTrace_replicate_paste (n : ℕ) :
    schedTrace (List.replicate n Ev.paste) = [] := by
  induction n with
  | zero => rfl
  | succ m ih => simpa [List.replicate_succ, schedTrace] using ih

theorem pasteCount_replicate_paste (n : ℕ) :
    pasteCount (List.replicate n Ev.paste) = n := by
  induction n with
  | zero => rfl
  | succ m ih => simpa [List.replicate_succ, pasteCount, List.filter_cons] using ih

/-! ## Helper lemmas: running the event loop to completion -/

theorem driveRun_succ (copyOk : String → Bool) (getter : ℕ → IntervalRes)
    (n : ℕ) (s : RunnerState) :
    driveRun copyOk getter (n + 1) s =
      (let pEs := List.replicate s.pendingPaste Ev.paste
       let s0 := { s with pendingPaste := 0 }
       if s0.timerActive then
         let r1 := process_next_image copyOk getter s0
         let r2 := driveRun copyOk getter n r1.1
         (r2.1, pEs ++ r1.2 ++ r2.2)
       else if s0.pendingStop then
         let r2 := driveRun copyOk getter n
           (stop_auto_copy_paste { s0 with pendingStop := false })
         (r2.1, pEs ++ r2.2)
       else (s0, pEs)) := rfl

/-- Once the cursor has passed the end and the final `singleShot(1000,
stop)` is pending, the loop only flushes the pending pastes and goes
idle: no further clipboard-write happens. -/
theorem drive_drain (copyOk : String → Bool) (getter : ℕ → IntervalRes) :
    ∀ (n idx : ℕ) (imgs : List String) (b : Bool) (pp gc : ℕ),
      4 ≤ n → imgs.length ≤ idx →
      driveRun copyOk getter n ⟨idx, imgs, true, b, pp, true, gc⟩ =
        (⟨idx, imgs, false, false, 0, false, gc⟩, List.replicate pp Ev.paste) := by
  intro n idx imgs b pp gc h4 hlen
  obtain ⟨m, rfl⟩ : ∃ m, n = m + 4 := ⟨n - 4, by omega⟩
  cases b <;>
    simp [driveRun, process_next_image, stop_auto_copy_paste, hlen]

theorem copyTrace_nil : copyTrace [] = [] := rfl

theorem schedTrace_nil : schedTrace [] = [] := rfl

theorem pasteCount_nil : pasteCount [] = 0 := rfl

theorem copyTrace_cons_copy (p : String) (ok : Bool) (es : List Ev) :
    copyTrace (Ev.copy p ok :: es) = (p, ok) :: copyTrace es := by
  simp [copyTrace]

theorem copyTrace_cons_sched (ms : ℕ) (es : List Ev) :
    copyTrace (Ev.sched ms :: es) = copyTrace es := by
  simp [copyTrace]

theorem schedTrace_cons_copy (p : String) (ok : Bool) (es : List Ev) :
    schedTrace (Ev.copy p ok :: es) = schedTrace es := by
  simp [schedTrace]

theorem schedTrace_cons_sched (ms : ℕ) (es : List Ev) :
    schedTrace (Ev.sched ms :: es) = ms :: schedTrace es := by
  simp [schedTrace]

theorem pasteCount_cons_copy (p : String) (ok : Bool) (es : List Ev) :
    pasteCount (Ev.copy p ok :: es) = pasteCount es := by
  simp [pasteCount, List.filter_cons]

theorem pasteCount_cons_sched (ms : ℕ) (es : List Ev) :
    pasteCount (Ev.sched ms :: es) = pasteCount es := by
  simp [pasteCount, List.filter_cons]

theorem drop_cons_getD (imgs : List String) (idx : ℕ) (h : idx < imgs.length) :
    imgs.drop idx = imgs.getD idx "" :: imgs.drop (idx + 1) := by
  rw [List.drop_eq_getElem_cons h, List.getD_eq_getElem _ _ h]

theorem range_map_shift {α : Type} (f : ℕ → α) (gc r : ℕ) :
    (List.range (r + 1)).map (fun i => f (gc + i)) =
      f gc :: (List.range r).map (fun i => f (gc + 1 + i)) := by
  rw [List.range_succ_eq_map, List.map_cons, List.map_map]
  refine congrArg₂ _ (by rw [Nat.add_zero]) ?_
  apply List.map_congr_left
  intro i _
  simp only [Function.comp]
  congr 1
  omega

/-- The event loop from a mid-run state: with `r + 1` items left and the
repeating timer armed, the loop processes exactly the remaining snapshot
items in order, reads the interval getter once per gap, flushes every
settle paste, and ends idle with the timer stopped. -/
theorem drive_mid (copyOk : String → Bool) (getter : ℕ → IntervalRes)
    (imgs : List String) :
    ∀ (r n idx pp gc : ℕ), r + 5 ≤ n → imgs.length = idx + r + 1 →
      (driveRun copyOk getter n ⟨idx, imgs, true, true, pp, false, gc⟩).1 =
        ⟨imgs.length, imgs, false, false, 0, false, gc + r⟩ ∧
      copyTrace (driveRun copyOk getter n ⟨idx, imgs, true, true, pp, false, gc⟩).2 =
        (imgs.drop idx).map (fun p => (p, copyOk p)) ∧
      schedTrace (driveRun copyOk getter n ⟨idx, imgs, true, true, pp, false, gc⟩).2 =
        (List.range r).map (fun i => delayMs getter (gc + i)) ∧
      pasteCount (driveRun copyOk getter n ⟨idx, imgs, true, true, pp, false, gc⟩).2 =
        pp + ((imgs.drop idx).filter copyOk).length := by
  intro r
  induction r with
  | zero =>
    intro n idx pp gc hn hlen
    have hidx : idx < imgs.length := by omega
    obtain ⟨m, rfl⟩ : ∃ m, n = m + 5 := ⟨n - 5, by omega⟩
    rw [show m + 5 = (m + 4) + 1 from rfl, driveRun_succ]
    have hstep : process_next_image copyOk getter ⟨idx, imgs, true, true, 0, false, gc⟩ =
        (⟨idx + 1, imgs, true, true,
            if copyOk (imgs.getD idx "") then 1 else 0, true, gc⟩,
          [Ev.copy (imgs.getD idx "") (copyOk (imgs.getD idx ""))]) := by
      simp only [process_next_image]
      rw [if_neg (by simp; omega), if_neg (by simp; omega)]
    simp only [hstep]
    rw [drive_drain copyOk getter (m + 4) (idx + 1) imgs true _ gc (by omega) (by omega)]
    rw [drop_cons_getD imgs idx hidx, List.drop_eq_nil_of_le (by omega)]
    simp only [if_true]
    refine ⟨?_, ?_, ?_, ?_⟩
    · rw [hlen]
      simp
    · simp only [copyTrace_append, copyTrace_replicate_paste, copyTrace_cons_copy,
        copyTrace_nil, List.map_cons, List.map_nil]
      try simp
    · simp only [schedTrace_append, schedTrace_replicate_paste, schedTrace_cons_copy,
        schedTrace_nil, List.range_zero, List.map_nil]
      try simp
    · simp only [pasteCount_append, pasteCount_replicate_paste, pasteCount_cons_copy,
        pasteCount_nil, List.filter_cons]
      split <;> simp
  | succ r ih =>
    intro n idx pp gc hn hlen
    have hidx : idx < imgs.length := by omega
    obtain ⟨m, rfl⟩ : ∃ m, n = m + 1 := ⟨n - 1, by omega⟩
    rw [driveRun_succ]
    have hstep : process_next_image copyOk getter ⟨idx, imgs, true, true, 0, false, gc⟩ =
        (⟨idx + 1, imgs, true, true,
            if copyOk (imgs.getD idx "") then 1 else 0, false, gc + 1⟩,
          [Ev.copy (imgs.getD idx "") (copyOk (imgs.getD idx "")),
            Ev.sched (delayMs getter gc)]) := by
      simp only [process_next_image]
      rw [if_neg (by simp; omega), if_pos (by omega)]
    simp only [hstep, if_true]
    obtain ⟨hst, hcopy, hsched, hpaste⟩ :=
      ih m (idx + 1) (if copyOk (imgs.getD idx "") then 1 else 0) (gc + 1)
        (by omega) (by omega)
    refine ⟨?_, ?_, ?_, ?_⟩
    · simp only [hst]
      congr 1
      omega
    · simp only [copyTrace_append, copyTrace_replicate_paste, copyTrace_cons_copy,
        copyTrace_cons_sched, copyTrace_nil, hcopy,
        drop_cons_getD imgs idx hidx, List.map_cons]
      try simp
    · simp only [schedTrace_append, schedTrace_replicate_paste, schedTrace_cons_copy,
        schedTrace_cons_sched, schedTrace_nil, hsched,
        range_map_shift (delayMs getter) gc r]
      try simp
    · simp only [pasteCount_append, pasteCount_replicate_paste, pasteCount_cons_copy,
        pasteCount_cons_sched, pasteCount_nil, hpaste,
        drop_cons_getD imgs idx hidx, List.filter_cons]
      split <;> simp <;> omega

/-- A complete run over a non-empty snapshot: every snapshot item gets
exactly one clipboard-write in order, one interval read per gap, one paste
per successful copy, and the runner ends idle with the timer stopped. -/
theorem runAll_run (copyOk : String → Bool) (getter : ℕ → IntervalRes)
    (dir : ScratchDir) (h : get_temp_image_files dir ≠ []) :
    (runAll copyOk getter dir).1.is_auto_processing = false ∧
    (runAll copyOk getter dir).1.timerActive = false ∧
    (runAll copyOk getter dir).1.images_to_process = get_temp_image_files dir ∧
    (runAll copyOk getter dir).1.current_image_index = (get_temp_image_files dir).length ∧
    copyTrace (runAll copyOk getter dir).2 =
      (get_temp_image_files dir).map (fun p => (p, copyOk p)) ∧
    schedTrace (runAll copyOk getter dir).2 =
      (List.range ((get_temp_image_files dir).length - 1)).map (delayMs getter) ∧
    pasteCount (runAll copyOk getter dir).2 =
      ((get_temp_image_files dir).filter copyOk).length := by
  obtain ⟨x0, rest, himgs⟩ : ∃ a l, get_temp_image_files dir = a :: l := by
    cases hE : get_temp_image_files dir with
    | nil => exact absurd hE h
    | cons a l => exact ⟨a, l, rfl⟩
  have hstart : start_auto_copy_paste copyOk getter dir initState =
      process_next_image copyOk getter ⟨0, x0 :: rest, true, false, 0, false, 0⟩ := by
    simp [start_auto_copy_paste, himgs, initState]
  cases rest with
  | nil =>
    have hstep : process_next_image copyOk getter ⟨0, [x0], true, false, 0, false, 0⟩ =
        (⟨1, [x0], true, false, if copyOk x0 then 1 else 0, true, 0⟩,
          [Ev.copy x0 (copyOk x0)]) := by
      simp only [process_next_image]
      rw [if_neg (by simp), if_neg (by simp)]
      simp [List.getD]
    unfold runAll
    rw [hstart, hstep, himgs]
    simp only [List.length_cons, List.length_nil, Nat.zero_add]
    rw [drive_drain copyOk getter (1 + 5) 1 [x0] false _ 0 (by omega) (by simp)]
    refine ⟨rfl, rfl, rfl, rfl, ?_, ?_, ?_⟩
    · simp [copyTrace_append, copyTrace_cons_copy, copyTrace_nil,
        copyTrace_replicate_paste]
    · simp [schedTrace_append, schedTrace_cons_copy, schedTrace_nil,
        schedTrace_replicate_paste]
    · simp only [pasteCount_append, pasteCount_cons_copy, pasteCount_nil,
        pasteCount_replicate_paste, List.filter_cons, List.filter_nil]
      split <;> simp
  | cons y0 rest2 =>
    have hstep : process_next_image copyOk getter
        ⟨0, x0 :: y0 :: rest2, true, false, 0, false, 0⟩ =
        (⟨1, x0 :: y0 :: rest2, true, true, if copyOk x0 then 1 else 0, false, 1⟩,
          [Ev.copy x0 (copyOk x0), Ev.sched (delayMs getter 0)]) := by
      simp only [process_next_image]
      rw [if_neg (by simp), if_pos (by simp)]
      simp [List.getD]
    unfold runAll
    rw [hstart, hstep, himgs]
    simp only [List.length_cons]
    obtain ⟨hst, hcopy, hsched, hpaste⟩ :=
      drive_mid copyOk getter (x0 :: y0 :: rest2) rest2.length
        (rest2.length + 1 + 1 + 5) 1 (if copyOk x0 then 1 else 0) 1
        (by omega) (by simp; omega)
    refine ⟨?_, ?_, ?_, ?_, ?_, ?_, ?_⟩
    · rw [hst]
    · rw [hst]
    · rw [hst]
    · rw [hst]
      simp
    · simp only [copyTrace_append, copyTrace_cons_copy, copyTrace_cons_sched,
        copyTrace_nil, hcopy, List.drop_succ_cons, List.drop_zero, List.map_cons,
        List.nil_append, List.singleton_append]
    · simp only [schedTrace_append, schedTrace_cons_copy, schedTrace_cons_sched,
        schedTrace_nil, hsched, List.nil_append]
      rw [show rest2.length + 1 + 1 - 1 = rest2.length + 1 by omega,
        List.range_succ_eq_map, List.map_cons, List.map_map]
      refine congrArg₂ _ rfl ?_
      apply List.map_congr_left
      intro i _
      simp only [Function.comp]
      congr 1
      omega
    · simp only [pasteCount_append, pasteCount_cons_copy, pasteCount_cons_sched,
        pasteCount_nil, hpaste, List.drop_succ_cons, List.drop_zero, List.filter_cons]
      split <;> simp <;> omega

theorem stop_of_idle (s : RunnerState) (h : s.is_auto_processing = false) :
    stop_auto_copy_paste s = s := by
  simp [stop_auto_copy_paste, h]

theorem stop_of_run (s : RunnerState) (h : s.is_auto_processing = true) :
    stop_auto_copy_paste s =
      { s with timerActive := false, is_auto_processing := false } := by
  simp [stop_auto_copy_paste, h]

/-- From an idle state with the repeating timer stopped, the event loop
never performs another clipboard-write and never re-arms the timer: at
most the already-scheduled settle pastes fire. -/
theorem drive_idle (copyOk : String → Bool) (getter : ℕ → IntervalRes) :
    ∀ (n : ℕ) (s : RunnerState), s.is_auto_processing = false → s.timerActive = false →
      (driveRun copyOk getter n s).1.is_auto_processing = false ∧
      (driveRun copyOk getter n s).1.timerActive = false ∧
      copyTrace (driveRun copyOk getter n s).2 = [] ∧
      schedTrace (driveRun copyOk getter n s).2 = [] := by
  intro n
  induction n with
  | zero =>
    intro s h1 h2
    exact ⟨h1, h2, rfl, rfl⟩
  | succ m ih =>
    intro s h1 h2
    simp only [driveRun_succ, h2, Bool.false_eq_true, if_false]
    by_cases hps : s.pendingStop = true
    · simp only [hps, if_true]
      rw [stop_of_idle
        { s with timerActive := false, pendingPaste := 0, pendingStop := false } h1]
      obtain ⟨a, b, c, d⟩ :=
        ih { s with timerActive := false, pendingPaste := 0, pendingStop := false } h1 rfl
      refine ⟨a, b, ?_, ?_⟩
      · simp [copyTrace_append, copyTrace_replicate_paste, c]
      · simp [schedTrace_append, schedTrace_replicate_paste, d]
    · have hps' : s.pendingStop = false := Bool.eq_false_iff.mpr hps
      simp only [hps', Bool.false_eq_true, if_false]
      exact ⟨h1, trivial, copyTrace_replicate_paste _, schedTrace_replicate_paste _⟩

theorem delete_steps_count (removeFail : String → Bool) :
    ∀ (selected disk tfs : List String) (c : ℕ),
      (selected.foldl (delete_step removeFail) (disk, tfs, c)).2.2 +
        (selected.foldl (delete_step removeFail) (disk, tfs, c)).1.length =
        c + disk.length := by
  intro selected
  induction selected with
  | nil =>
    intro disk tfs c
    simp [List.foldl_nil]
  | cons p rest ih =>
    intro disk tfs c
    rw [List.foldl_cons]
    by_cases hmem : p ∈ disk
    · by_cases hf : removeFail p = true
      · rw [show delete_step removeFail (disk, tfs, c) p = (disk, tfs, c) by
          simp [delete_step, hmem, hf]]
        exact ih disk tfs c
      · have hf' : removeFail p = false := Bool.eq_false_iff.mpr hf
        rw [show delete_step removeFail (disk, tfs, c) p =
            (disk.erase p, tfs.erase p, c + 1) by
          simp [delete_step, hmem, hf']]
        rw [ih (disk.erase p) (tfs.erase p) (c + 1)]
        have hlen := List.length_erase_of_mem hmem
        have hpos := List.length_pos_of_mem hmem
        omega
    · rw [show delete_step removeFail (disk, tfs, c) p = (disk, tfs.erase p, c) by
        simp [delete_step, hmem]]
      exact ih disk (tfs.erase p) c

/-! ## Claim theorems -/

/-- C1: for every non-empty snapshot, `start_auto_copy_paste` followed by
the event loop performs exactly one clipboard-write per snapshot item, in
snapshot order, and the runner returns to Idle (`is_auto_processing`
false) after the last item. -/
theorem batch_start_processes_all_then_idle
    (copyOk : String → Bool) (getter : ℕ → IntervalRes) (dir : ScratchDir)
    (h : get_temp_image_files dir ≠ []) :
    (runAll copyOk getter dir).1.is_auto_processing = false ∧
    copyTrace (runAll copyOk getter dir).2 =
      (get_temp_image_files dir).map (fun p => (p, copyOk p)) :=
  ⟨(runAll_run copyOk getter dir h).1, (runAll_run copyOk getter dir h).2.2.2.2.1⟩

/-- Witness for C1 on a concrete two-image directory. -/
theorem batch_start_processes_all_then_idle_witness :
    get_temp_image_files dirTwo ≠ [] ∧
    ((runAll copyOkAll getterConst4 dirTwo).1.is_auto_processing = false ∧
      copyTrace (runAll copyOkAll getterConst4 dirTwo).2 =
        (get_temp_image_files dirTwo).map (fun p => (p, copyOkAll p))) :=
  ⟨by decide, batch_start_processes_all_then_idle copyOkAll getterConst4 dirTwo (by decide)⟩

/-- C2 counterexample: no single listing operation matches the spec's
`listAssets` (gif allowed, regular files only, mtime ascending):
`refresh_temp_files` drops a regular `.gif` file, and
`get_temp_image_files` orders by name, not by mtime. -/
theorem listing_spec_mismatch_counterexample :
    refresh_temp_files dirGif ≠ listAssets_spec dirGif ∧
    get_temp_image_files dirMtime ≠ listAssets_spec dirMtime ∧
    refresh_temp_files dirGif = [] ∧ listAssets_spec dirGif = ["a.gif"] ∧
    get_temp_image_files dirMtime = ["a.png", "b.png"] ∧
    listAssets_spec dirMtime = ["b.png", "a.png"] := by decide

/-- C2 amended: `get_temp_image_files` returns exactly the entries passing
the six-extension filter (gif included, regular or not), sorted ascending
by name; `refresh_temp_files` returns exactly the regular files passing
the five-extension filter (no gif), sorted ascending by mtime; both
return `[]` on a missing or unreadable directory instead of raising. -/
theorem listing_functions_behavior :
    (∀ entries : List DirEntry,
      (get_temp_image_files (.present entries)).Perm
        ((entries.filter (fun e => hasImageExt autoExts e.name)).map (fun e => e.name)) ∧
      List.Sorted pyLe (get_temp_image_files (.present entries))) ∧
    (∀ entries : List DirEntry, ∃ l : List DirEntry,
      refresh_temp_files (.present entries) = l.map (fun e => e.name) ∧
      l.Perm (entries.filter (fun e => hasImageExt refreshExts e.name && e.isFile)) ∧
      List.Sorted mtimeLe l) ∧
    get_temp_image_files .missing = [] ∧ get_temp_image_files .unreadable = [] ∧
    refresh_temp_files .missing = [] ∧ refresh_temp_files .unreadable = [] := by
  refine ⟨fun entries => ⟨?_, ?_⟩, fun entries => ⟨List.insertionSort mtimeLe
    (entries.filter (fun e => hasImageExt refreshExts e.name && e.isFile)),
    rfl, ?_, ?_⟩, rfl, rfl, rfl, rfl⟩
  · exact List.perm_insertionSort pyLe _
  · exact List.sorted_insertionSort pyLe _
  · exact List.perm_insertionSort mtimeLe _
  · exact List.sorted_insertionSort mtimeLe _

/-- C3 counterexample: the watcher is level-triggered, not edge-triggered:
holding the chord across two consecutive polls invokes the callback
twice, where the spec's edge-triggered detector would fire once. -/
theorem hotkey_not_edge_triggered_counterexample :
    listen_loop_calls [chordFlags, chordFlags] = 2 ∧
    edge_calls_spec false [chordFlags, chordFlags] = 1 ∧
    listen_loop_calls [chordFlags, chordFlags] ≠
      edge_calls_spec false [chordFlags, chordFlags] := by decide

/-- C3 amended: the callback fires once per poll tick at which the chord
is fully held (level-triggered); the one-tick sequence
not-held→held→not-held→held therefore still yields exactly two calls. -/
theorem hotkey_level_triggered :
    (∀ polls : List ℕ,
      listen_loop_calls polls = (polls.filter get_key_state).length) ∧
    listen_loop_calls [0, chordFlags, 0, chordFlags] = 2 := by
  constructor
  · intro polls
    induction polls with
    | nil => rfl
    | cons k rest ih =>
      by_cases h : get_key_state k = true <;>
        simp [listen_loop_calls, List.filter_cons, h, ih] <;> omega
  · decide

/-- C4 counterexample: cancelling right after a successful copy leaves the
500 ms settle single-shot pending; it is not cancelled and a paste call
still occurs after `stop_auto_copy_paste` has returned. -/
theorem cancel_pending_paste_fires_counterexample :
    (stop_auto_copy_paste
        (start_auto_copy_paste copyOkAll getterConst4 dirOne initState).1).is_auto_processing
      = false ∧
    (driveRun copyOkAll getterConst4 4
        (stop_auto_copy_paste
          (start_auto_copy_paste copyOkAll getterConst4 dirOne initState).1)).2 =
      [Ev.paste] ∧
    pasteCount (driveRun copyOkAll getterConst4 4
        (stop_auto_copy_paste
          (start_auto_copy_paste copyOkAll getterConst4 dirOne initState).1)).2 ≠ 0 := by
  decide

/-- C4 amended: cancelling during Processing leaves the runner Idle with
the repeating inter-item timer actively cancelled, and no further
clipboard-write or timer arming ever occurs; only an already-scheduled
settle paste may still fire. -/
theorem cancel_idle_no_further_copy (copyOk : String → Bool)
    (getter : ℕ → IntervalRes) (s : RunnerState)
    (h : s.is_auto_processing = true) :
    (stop_auto_copy_paste s).is_auto_processing = false ∧
    (stop_auto_copy_paste s).timerActive = false ∧
    ∀ n, copyTrace (driveRun copyOk getter n (stop_auto_copy_paste s)).2 = [] ∧
      schedTrace (driveRun copyOk getter n (stop_auto_copy_paste s)).2 = [] ∧
      (driveRun copyOk getter n (stop_auto_copy_paste s)).1.is_auto_processing = false := by
  rw [stop_of_run s h]
  refine ⟨rfl, rfl, fun n => ?_⟩
  obtain ⟨a, b, c, d⟩ := drive_idle copyOk getter n
    { s with timerActive := false, is_auto_processing := false } rfl rfl
  exact ⟨c, d, a⟩

/-- Witness for C4's amended statement on a concrete mid-run state. -/
theorem cancel_idle_no_further_copy_witness :
    busyState.is_auto_processing = true ∧
    ((stop_auto_copy_paste busyState).is_auto_processing = false ∧
      (stop_auto_copy_paste busyState).timerActive = false ∧
      ∀ n, copyTrace (driveRun copyOkAll getterConst4 n
          (stop_auto_copy_paste busyState)).2 = [] ∧
        schedTrace (driveRun copyOkAll getterConst4 n
          (stop_auto_copy_paste busyState)).2 = [] ∧
        (driveRun copyOkAll getterConst4 n
          (stop_auto_copy_paste busyState)).1.is_auto_processing = false) :=
  ⟨by decide, cancel_idle_no_further_copy copyOkAll getterConst4 busyState (by decide)⟩

/-- C5: `start_auto_copy_paste` while Processing is a no-op leaving state
and trace untouched; with an empty listing it is rejected without
entering Processing and makes no call; otherwise it snapshots the
listing, resets the cursor and copies item 0 immediately (the first
emitted event is that copy, with no scheduled delay before it). -/
theorem start_rejection_and_first_item (copyOk : String → Bool)
    (getter : ℕ → IntervalRes) (dir : ScratchDir) (s : RunnerState) :
    (s.is_auto_processing = true →
      start_auto_copy_paste copyOk getter dir s = (s, [])) ∧
    (s.is_auto_processing = false → get_temp_image_files dir = [] →
      (start_auto_copy_paste copyOk getter dir s).1.is_auto_processing = false ∧
      (start_auto_copy_paste copyOk getter dir s).2 = []) ∧
    (s.is_auto_processing = false → ∀ x rest, get_temp_image_files dir = x :: rest →
      (start_auto_copy_paste copyOk getter dir s).1.is_auto_processing = true ∧
      (start_auto_copy_paste copyOk getter dir s).1.images_to_process = x :: rest ∧
      (start_auto_copy_paste copyOk getter dir s).1.current_image_index = 1 ∧
      (start_auto_copy_paste copyOk getter dir s).2.head? =
        some (Ev.copy x (copyOk x))) := by
  refine ⟨?_, ?_, ?_⟩
  · intro h
    simp [start_auto_copy_paste, h]
  · intro h he
    simp [start_auto_copy_paste, h, he]
  · intro h x rest he
    have hstart : start_auto_copy_paste copyOk getter dir s =
        process_next_image copyOk getter
          { s with
              images_to_process := x :: rest
              current_image_index := 0
              is_auto_processing := true } := by
      simp [start_auto_copy_paste, h, he]
    rw [hstart]
    cases rest with
    | nil =>
      rw [show process_next_image copyOk getter
          { s with
              images_to_process := [x]
              current_image_index := 0
              is_auto_processing := true } =
          ({ s with
              images_to_process := [x]
              current_image_index := 1
              is_auto_processing := true
              pendingPaste := (if copyOk x then s.pendingPaste + 1 else s.pendingPaste)
              pendingStop := true },
            [Ev.copy x (copyOk x)]) by
        simp only [process_next_image]
        rw [if_neg (by simp), if_neg (by simp)]
        simp [List.getD]]
      exact ⟨rfl, rfl, rfl, rfl⟩
    | cons y rest2 =>
      rw [show process_next_image copyOk getter
          { s with
              images_to_process := x :: y :: rest2
              current_image_index := 0
              is_auto_processing := true } =
          ({ s with
              images_to_process := x :: y :: rest2
              current_image_index := 1
              is_auto_processing := true
              pendingPaste := (if copyOk x then s.pendingPaste + 1 else s.pendingPaste)
              timerActive := true
              getterCalls := s.getterCalls + 1 },
            [Ev.copy x (copyOk x), Ev.sched (delayMs getter s.getterCalls)]) by
        simp only [process_next_image]
        rw [if_neg (by simp), if_pos (by simp)]
        simp [List.getD]]
      exact ⟨rfl, rfl, rfl, rfl⟩

/-- Witness for C5 on concrete busy, empty-listing and two-image inputs. -/
theorem start_rejection_and_first_item_witness :
    start_auto_copy_paste copyOkAll getterConst4 dirTwo busyState = (busyState, []) ∧
    ((start_auto_copy_paste copyOkAll getterConst4 .missing initState).1.is_auto_processing
        = false ∧
      (start_auto_copy_paste copyOkAll getterConst4 .missing initState).2 = []) ∧
    ((start_auto_copy_paste copyOkAll getterConst4 dirTwo initState).1.is_auto_processing
        = true ∧
      (start_auto_copy_paste copyOkAll getterConst4 dirTwo initState).1.images_to_process
        = "a.png" :: ["b.png"] ∧
      (start_auto_copy_paste copyOkAll getterConst4 dirTwo initState).1.current_image_index
        = 1 ∧
      (start_auto_copy_paste copyOkAll getterConst4 dirTwo initState).2.head? =
        some (Ev.copy "a.png" (copyOkAll "a.png"))) :=
  ⟨(start_rejection_and_first_item copyOkAll getterConst4 dirTwo busyState).1 (by decide),
    (start_rejection_and_first_item copyOkAll getterConst4 .missing initState).2.1
      (by decide) (by decide),
    (start_rejection_and_first_item copyOkAll getterConst4 dirTwo initState).2.2
      (by decide) "a.png" ["b.png"] (by decide)⟩

/-- C6: a failed clipboard-copy of one item does not retry and does not
abort: the failure is recorded at that item's position in the trace, the
cursor still reaches the end, every item is still attempted exactly once
in order, pastes happen only for successful copies, and the run ends
Idle. -/
theorem copy_failure_skips_paste_and_continues (copyOk : String → Bool)
    (getter : ℕ → IntervalRes) (dir : ScratchDir) (k : ℕ)
    (hk : k < (get_temp_image_files dir).length)
    (hfail : copyOk ((get_temp_image_files dir).getD k "") = false) :
    copyTrace (runAll copyOk getter dir).2 =
      (get_temp_image_files dir).map (fun p => (p, copyOk p)) ∧
    (copyTrace (runAll copyOk getter dir).2).getD k ("", true) =
      ((get_temp_image_files dir).getD k "", false) ∧
    pasteCount (runAll copyOk getter dir).2 =
      ((get_temp_image_files dir).filter copyOk).length ∧
    (runAll copyOk getter dir).1.current_image_index =
      (get_temp_image_files dir).length ∧
    (runAll copyOk getter dir).1.is_auto_processing = false := by
  have hne : get_temp_image_files dir ≠ [] := by
    intro he
    rw [he] at hk
    simp at hk
  obtain ⟨a, b, c, d, e, f, g⟩ := runAll_run copyOk getter dir hne
  have hfail' : copyOk ((get_temp_image_files dir)[k]) = false := by
    rwa [List.getD_eq_getElem _ _ hk] at hfail
  refine ⟨e, ?_, g, d, a⟩
  rw [e, List.getD_eq_getElem _ _ (by simpa using hk), List.getElem_map,
    List.getD_eq_getElem _ _ hk, hfail']

/-- Witness for C6: the copy of `a.png` fails, `b.png` still runs. -/
theorem copy_failure_skips_paste_and_continues_witness :
    0 < (get_temp_image_files dirTwo).length ∧
    copyOkNotA ((get_temp_image_files dirTwo).getD 0 "") = false ∧
    (copyTrace (runAll copyOkNotA getterConst4 dirTwo).2 =
      (get_temp_image_files dirTwo).map (fun p => (p, copyOkNotA p)) ∧
    (copyTrace (runAll copyOkNotA getterConst4 dirTwo).2).getD 0 ("", true) =
      ((get_temp_image_files dirTwo).getD 0 "", false) ∧
    pasteCount (runAll copyOkNotA getterConst4 dirTwo).2 =
      ((get_temp_image_files dirTwo).filter copyOkNotA).length ∧
    (runAll copyOkNotA getterConst4 dirTwo).1.current_image_index =
      (get_temp_image_files dirTwo).length ∧
    (runAll copyOkNotA getterConst4 dirTwo).1.is_auto_processing = false) :=
  ⟨by decide, by decide,
    copy_failure_skips_paste_and_continues copyOkNotA getterConst4 dirTwo 0
      (by decide) (by decide)⟩

/-- C7: the effective interval is `clamp(v, 0.5, 60)` (0.1 ↦ 0.5,
120 ↦ 60, 4 ↦ 4), and during a run the getter is re-read for every gap:
the k-th armed delay is computed from the getter's k-th answer. -/
theorem interval_clamp_and_reread (copyOk : String → Bool)
    (getter : ℕ → IntervalRes) (dir : ScratchDir) (v : ℚ)
    (h : get_temp_image_files dir ≠ []) :
    get_copy_interval (.ok v) = min 60 (max half v) ∧
    get_copy_interval (.ok (Rat.divInt 1 10)) = half ∧
    get_copy_interval (.ok 120) = 60 ∧
    get_copy_interval (.ok 4) = 4 ∧
    half = 1 / 2 ∧
    schedTrace (runAll copyOk getter dir).2 =
      (List.range ((get_temp_image_files dir).length - 1)).map (delayMs getter) := by
  have half_eq : half = 1 / 2 := by
    norm_num [half, Rat.divInt_eq_div]
  refine ⟨?_, by decide, by decide, by decide, half_eq,
    (runAll_run copyOk getter dir h).2.2.2.2.2.1⟩
  simp only [get_copy_interval, half_eq]
  split_ifs with h1 h2
  · rw [max_eq_left h1.le, min_eq_right (by norm_num)]
  · rw [max_eq_right (le_of_not_lt h1), min_eq_left h2.le]
  · rw [max_eq_right (le_of_not_lt h1), min_eq_right (le_of_not_lt h2)]

/-- Witness for C7 on a three-image run whose getter answers 4 then 7:
the two gaps are armed with 4000 ms and 7000 ms. -/
theorem interval_clamp_and_reread_witness :
    get_temp_image_files dirThree ≠ [] ∧
    (get_copy_interval (.ok 4) = min 60 (max half 4) ∧
      get_copy_interval (.ok (Rat.divInt 1 10)) = half ∧
      get_copy_interval (.ok 120) = 60 ∧
      get_copy_interval (.ok 4) = 4 ∧
      half = 1 / 2 ∧
      schedTrace (runAll copyOkAll getterSteps dirThree).2 =
        (List.range ((get_temp_image_files dirThree).length - 1)).map
          (delayMs getterSteps)) ∧
    schedTrace (runAll copyOkAll getterSteps dirThree).2 = [4000, 7000] :=
  ⟨by decide,
    interval_clamp_and_reread copyOkAll getterSteps dirThree 4 (by decide),
    by decide⟩

/-- C8 counterexample: `create_temp_directory` is not idempotent: a second
call before teardown silently allocates a fresh directory and overwrites
`temp_dir` instead of returning the existing one. -/
theorem create_temp_directory_not_idempotent_counterexample :
    (create_temp_directory mkSeq initDoc).temp_dir = some "dir0" ∧
    (create_temp_directory mkSeq (create_temp_directory mkSeq initDoc)).temp_dir =
      some "dir1" ∧
    (create_temp_directory mkSeq (create_temp_directory mkSeq initDoc)).temp_dir ≠
      (create_temp_directory mkSeq initDoc).temp_dir := by decide

/-- C8 amended: each call consumes the next `mkdtemp` result and
overwrites `temp_dir` (so a repeated call silently re-creates); a
creation failure is caught and recorded as `temp_dir = None` rather than
raising `IOError`; the application calls it once per session. -/
theorem create_temp_directory_overwrites (mk : ℕ → Option String) (s : DocState) :
    (create_temp_directory mk s).temp_dir = mk s.mkCalls ∧
    (create_temp_directory mk s).mkCalls = s.mkCalls + 1 ∧
    (create_temp_directory mk s).temp_files = s.temp_files ∧
    (create_temp_directory mk (create_temp_directory mk s)).temp_dir =
      mk (s.mkCalls + 1) := by
  refine ⟨?_, ?_, ?_, ?_⟩ <;>
    cases h : mk s.mkCalls <;>
      simp [create_temp_directory, h] <;>
        cases h2 : mk (s.mkCalls + 1) <;>
          simp [create_temp_directory, h2]

/-- C9 counterexample: a path already gone from disk is skipped without
error but is not reported in the returned deleted count: the call
returns 0, not 1, for a single missing path. -/
theorem delete_missing_not_counted_counterexample :
    (delete_selected_files (fun _ => false) [] ["p.png"] ["p.png"]).2.2 = 0 ∧
    (delete_selected_files (fun _ => false) [] ["p.png"] ["p.png"]).2.2 ≠ 1 ∧
    (delete_selected_files (fun _ => false) [] ["p.png"] ["p.png"]).2.1 = [] := by
  decide

/-- C9 amended: the delete loop is total (per-path errors are caught, it
never raises) and the returned count equals the number of files actually
removed from disk; a path absent from disk is skipped without error and
dropped from the tracked list, but not counted as deleted. -/
theorem delete_best_effort_count (removeFail : String → Bool)
    (disk tfs selected : List String) :
    (delete_selected_files removeFail disk tfs selected).2.2 +
      (delete_selected_files removeFail disk tfs selected).1.length =
      disk.length ∧
    (∀ p, p ∉ disk →
      delete_selected_files removeFail disk tfs [p] = (disk, tfs.erase p, 0)) := by
  constructor
  · have h := delete_steps_count removeFail selected disk tfs 0
    simpa [delete_selected_files] using h
  · intro p hp
    simp [delete_selected_files, delete_step, hp]

/-- Witness for C9's amended statement on concrete disk contents. -/
theorem delete_best_effort_count_witness :
    ((delete_selected_files (fun _ => false) ["a.png", "b.png"] ["a.png", "b.png"]
        ["a.png", "gone.png"]).2.2 +
      (delete_selected_files (fun _ => false) ["a.png", "b.png"] ["a.png", "b.png"]
        ["a.png", "gone.png"]).1.length = (["a.png", "b.png"] : List String).length ∧
    (∀ p, p ∉ (["a.png", "b.png"] : List String) →
      delete_selected_files (fun _ => false) ["a.png", "b.png"] ["a.png", "b.png"] [p] =
        (["a.png", "b.png"], (["a.png", "b.png"] : List String).erase p, 0))) ∧
    (delete_selected_files (fun _ => false) ["a.png", "b.png"] ["a.png", "b.png"]
      ["a.png", "gone.png"]).2.2 = 1 :=
  ⟨delete_best_effort_count (fun _ => false) ["a.png", "b.png"] ["a.png", "b.png"]
      ["a.png", "gone.png"],
    by decide⟩

/-- C10: when the interval getter raises `ValueError` or `TypeError`,
`get_copy_interval` returns the default 4, which lies inside [0.5, 60],
and an in-flight run keeps going (both items copied, gap armed at
4000 ms, run ends Idle) instead of aborting. -/
theorem interval_error_returns_default :
    get_copy_interval .valueError = 4 ∧
    get_copy_interval .typeError = 4 ∧
    half ≤ get_copy_interval .valueError ∧
    get_copy_interval .valueError ≤ 60 ∧
    schedTrace (runAll copyOkAll getterErr dirTwo).2 = [4000] ∧
    copyTrace (runAll copyOkAll getterErr dirTwo).2 =
      [("a.png", true), ("b.png", true)] ∧
    (runAll copyOkAll getterErr dirTwo).1.is_auto_processing = false := by
  decide

end Pdfpaste
